/-
Verification of the Freedeck cloud-storage backend scripts
(src/unnamed/part_000 and src/backend/tianyi_share_resolver.js)
against their natural-language specification.

Modelling conventions:
  * Byte strings are `List Nat` (each entry a byte value 0..255).
  * Node's `crypto.createHash("md5")` is implemented concretely (RFC 1321)
    over `List Nat`, with 32-bit arithmetic as `Nat` modulo 2^32.
  * For statements that only depend on the *shape* of a hash computation,
    the digest function is a universally quantified parameter instead.
  * Strings hashed by the code are ASCII, so UTF-8 encoding is modelled as
    the list of code points (`strBytes`).
  * Network and filesystem effects are modelled by explicit environments
    (oracles indexed by call number) with instrumented call counts.
-/

import Mathlib

namespace Freedeck

/-! ## Bytes and hex encoding -/

/-- The code points of a string: the UTF-8 bytes of the ASCII strings that
occur in this development. -/
def strBytes (s : String) : List Nat := s.data.map Char.toNat

/-- Lowercase hex digit for a value 0..15. -/
def hexDigitLower (n : Nat) : Char :=
  if n < 10 then Char.ofNat (48 + n) else Char.ofNat (87 + n)

/-- Uppercase hex digit for a value 0..15. -/
def hexDigitUpper (n : Nat) : Char :=
  if n < 10 then Char.ofNat (48 + n) else Char.ofNat (55 + n)

/-- Lowercase hex rendering of a byte list, as `Buffer.toString("hex")`. -/
def hexLower (bs : List Nat) : String :=
  String.mk (bs.flatMap fun b => [hexDigitLower (b / 16 % 16), hexDigitLower (b % 16)])

/-- Uppercase hex rendering of a byte list, as `.toString("hex").toUpperCase()`. -/
def hexUpper (bs : List Nat) : String :=
  String.mk (bs.flatMap fun b => [hexDigitUpper (b / 16 % 16), hexDigitUpper (b % 16)])

/-! ## MD5 (RFC 1321), 32-bit words as Nat modulo 2^32 -/

def MOD32 : Nat := 4294967296

def add32 (a b : Nat) : Nat := (a + b) % MOD32

def rotl32 (x s : Nat) : Nat := ((x <<< s) % MOD32) ||| (x >>> (32 - s))

def not32 (x : Nat) : Nat := x ^^^ 4294967295

/-- The 64 MD5 sine-table constants. -/
def md5K : List Nat :=
  [0xd76aa478, 0xe8c7b756, 0x242070db, 0xc1bdceee,
   0xf57c0faf, 0x4787c62a, 0xa8304613, 0xfd469501,
   0x698098d8, 0x8b44f7af, 0xffff5bb1, 0x895cd7be,
   0x6b901122, 0xfd987193, 0xa679438e, 0x49b40821,
   0xf61e2562, 0xc040b340, 0x265e5a51, 0xe9b6c7aa,
   0xd62f105d, 0x02441453, 0xd8a1e681, 0xe7d3fbc8,
   0x21e1cde6, 0xc33707d6, 0xf4d50d87, 0x455a14ed,
   0xa9e3e905, 0xfcefa3f8, 0x676f02d9, 0x8d2a4c8a,
   0xfffa3942, 0x8771f681, 0x6d9d6122, 0xfde5380c,
   0xa4beea44, 0x4bdecfa9, 0xf6bb4b60, 0xbebfbc70,
   0x289b7ec6, 0xeaa127fa, 0xd4ef3085, 0x04881d05,
   0xd9d4d039, 0xe6db99e5, 0x1fa27cf8, 0xc4ac5665,
   0xf4292244, 0x432aff97, 0xab9423a7, 0xfc93a039,
   0x655b59c3, 0x8f0ccc92, 0xffeff47d, 0x85845dd1,
   0x6fa87e4f, 0xfe2ce6e0, 0xa3014314, 0x4e0811a1,
   0xf7537e82, 0xbd3af235, 0x2ad7d2bb, 0xeb86d391]

/-- The 64 MD5 per-round left-rotation amounts. -/
def md5S : List Nat :=
  [7, 12, 17, 22, 7, 12, 17, 22, 7, 12, 17, 22, 7, 12, 17, 22,
   5, 9, 14, 20, 5, 9, 14, 20, 5, 9, 14, 20, 5, 9, 14, 20,
   4, 11, 16, 23, 4, 11, 16, 23, 4, 11, 16, 23, 4, 11, 16, 23,
   6, 10, 15, 21, 6, 10, 15, 21, 6, 10, 15, 21, 6, 10, 15, 21]

/-- One MD5 round: the mixing function and message index for round `i`. -/
def md5FG (b c d i : Nat) : Nat × Nat :=
  if i < 16 then ((b &&& c) ||| (not32 b &&& d), i)
  else if i < 32 then ((d &&& b) ||| (not32 d &&& c), (5 * i + 1) % 16)
  else if i < 48 then (b ^^^ c ^^^ d, (3 * i + 5) % 16)
  else (c ^^^ (b ||| not32 d), (7 * i) % 16)

/-- Apply the 64 MD5 rounds of one block to the running state. -/
def md5Rounds (m : List Nat) (st : Nat × Nat × Nat × Nat) : Nat × Nat × Nat × Nat :=
  (List.range 64).foldl
    (fun st i =>
      let (a, b, c, d) := st
      let (f, g) := md5FG b c d i
      let tmp := add32 (add32 (add32 a f) (md5K.getD i 0)) (m.getD g 0)
      (d, add32 b (rotl32 tmp (md5S.getD i 0)), b, c))
    st

/-- Structural worker for `md5Blocks`: the fuel starts at the byte count,
which bounds the number of 64-byte blocks. -/
def md5BlocksAux : Nat → List Nat → List (List Nat)
  | 0, _ => []
  | fuel + 1, bs =>
    if bs.length = 0 then []
    else
      let block := bs.take 64
      let words := (List.range 16).map fun j =>
        block.getD (4 * j) 0 + 256 * block.getD (4 * j + 1) 0 +
          65536 * block.getD (4 * j + 2) 0 + 16777216 * block.getD (4 * j + 3) 0
      words :: md5BlocksAux fuel (bs.drop 64)

/-- Split a padded message into 64-byte blocks of sixteen little-endian
32-bit words. -/
def md5Blocks (bs : List Nat) : List (List Nat) := md5BlocksAux bs.length bs

/-- MD5 padding: a 0x80 byte, zeros to 56 mod 64, then the bit length as
eight little-endian bytes. -/
def md5Pad (bs : List Nat) : List Nat :=
  let len := bs.length
  let zeros := (64 + 56 - (len + 1) % 64) % 64
  let bitLen := (8 * len) % (2 ^ 64)
  bs ++ 128 :: List.replicate zeros 0 ++
    (List.range 8).map fun j => bitLen / (256 ^ j) % 256

/-- Emit one 32-bit word as four little-endian bytes. -/
def wordBytesLE (w : Nat) : List Nat :=
  [w % 256, w / 256 % 256, w / 65536 % 256, w / 16777216 % 256]

/-- MD5 digest of a byte list: sixteen bytes. -/
def md5 (bs : List Nat) : List Nat :=
  let init : Nat × Nat × Nat × Nat := (0x67452301, 0xefcdab89, 0x98badcfe, 0x10325476)
  let final := (md5Blocks (md5Pad bs)).foldl
    (fun st m =>
      let (a0, b0, c0, d0) := st
      let (a, b, c, d) := md5Rounds m st
      (add32 a0 a, add32 b0 b, add32 c0 c, add32 d0 d))
    init
  wordBytesLE final.1 ++ wordBytesLE final.2.1 ++
    wordBytesLE final.2.2.1 ++ wordBytesLE final.2.2.2

/-- `md5Hex` of src/unnamed/part_000: lowercase hex MD5 of a string's
UTF-8 bytes. -/
def md5Hex (text : String) : String := hexLower (md5 (strBytes text))

set_option maxRecDepth 10000 in
/-- MD5 test vector: the digest of "abc". -/
theorem md5Hex_abc : md5Hex "abc" = "900150983cd24fb0d6963f7d28e17f72" := by decide

set_option maxRecDepth 10000 in
/-- MD5 test vector: the digest of the empty string. -/
theorem md5Hex_empty : md5Hex "" = "d41d8cd98f00b204e9800998ecf8427e" := by decide

/-! ## `String.prototype.localeCompare` under Node's default ICU collation

`md5Signature` sorts keys with `String(a[0]).localeCompare(String(b[0]))`.
Node's default collator (Unicode root collation) compares primary weights of
the whole string first (punctuation < digits < letters, case-insensitive),
and only then tertiary (case) weights, with lowercase before uppercase.
The model below implements that two-pass comparison for the ASCII strings
this program signs; characters beyond ASCII are ordered after them by code
point. -/

/-- Primary collation weight of a character: its case-folded class. -/
def primaryWeight (c : Char) : Nat :=
  let n := c.toNat
  if 65 ≤ n ∧ n ≤ 90 then 1000 + 2 * (n + 32)
  else if 97 ≤ n ∧ n ≤ 122 then 1000 + 2 * n
  else if 48 ≤ n ∧ n ≤ 57 then 500 + n
  else if n < 128 then 10 + n
  else 100000 + n

/-- Tertiary collation weight: lowercase (and everything else) before
uppercase. -/
def tertiaryWeight (c : Char) : Nat :=
  if 65 ≤ c.toNat ∧ c.toNat ≤ 90 then 1 else 0

/-- Collation key of a string: all primary weights, a separator below every
weight, then all tertiary weights. -/
def collationKey (s : String) : List Nat :=
  s.data.map primaryWeight ++ 0 :: s.data.map tertiaryWeight

/-- Three-way lexicographic comparison of weight lists. -/
def lexCmp : List Nat → List Nat → Ordering
  | [], [] => .eq
  | [], _ :: _ => .lt
  | _ :: _, [] => .gt
  | a :: as, b :: bs =>
    if a < b then .lt else if b < a then .gt else lexCmp as bs

/-- The model of `a.localeCompare(b)`: negative, zero or positive as an
`Ordering`. -/
def localeCompare (a b : String) : Ordering := lexCmp (collationKey a) (collationKey b)

/-- `a` sorts no later than `b` under the locale comparator. -/
def localeLe (a b : String) : Bool := localeCompare a b ≠ Ordering.gt

theorem lexCmp_eq_iff : ∀ a b : List Nat, lexCmp a b = .eq ↔ a = b := by
  intro a
  induction a with
  | nil => intro b; cases b <;> simp [lexCmp]
  | cons x as ih =>
    intro b
    cases b with
    | nil => simp [lexCmp]
    | cons y bs =>
      simp only [lexCmp]
      by_cases h1 : x < y
      · simp [h1]; omega
      · by_cases h2 : y < x
        · simp [h1, h2]; omega
        · have hxy : x = y := by omega
          simp [h1, h2, hxy, ih]

theorem lexCmp_swap : ∀ a b : List Nat, lexCmp b a = (lexCmp a b).swap := by
  intro a
  induction a with
  | nil => intro b; cases b <;> simp [lexCmp, Ordering.swap]
  | cons x as ih =>
    intro b
    cases b with
    | nil => simp [lexCmp, Ordering.swap]
    | cons y bs =>
      simp only [lexCmp]
      by_cases h1 : x < y
      · have h2 : ¬ y < x := by omega
        simp [h1, h2, Ordering.swap]
      · by_cases h2 : y < x
        · simp [h1, h2, Ordering.swap]
        · simp [h1, h2, ih]

theorem lexCmp_trans_le :
    ∀ a b c : List Nat, lexCmp a b ≠ .gt → lexCmp b c ≠ .gt → lexCmp a c ≠ .gt := by
  intro a
  induction a with
  | nil =>
    intro b c _ _
    cases c <;> simp [lexCmp]
  | cons x as ih =>
    intro b c hab hbc
    cases b with
    | nil => cases c <;> simp [lexCmp] at hab ⊢
    | cons y bs =>
      cases c with
      | nil => simp [lexCmp] at hbc
      | cons z cs =>
        simp only [lexCmp] at hab hbc ⊢
        by_cases hxy : x < y
        · by_cases hyz : y < z
          · have : x < z := by omega
            simp [this]
          · by_cases hzy : z < y
            · simp [hxy, hyz, hzy] at hbc
            · have hyz' : y = z := by omega
              have : x < z := by omega
              simp [this]
        · by_cases hyx : y < x
          · simp [hxy, hyx] at hab
          · have hxy' : x = y := by omega
            subst hxy'
            by_cases hyz : x < z
            · simp [hyz]
            · by_cases hzy : z < x
              · simp [hyz, hzy] at hbc
              · have : x = z := by omega
                subst this
                simp [hyz, hzy] at hab hbc ⊢
                exact ih bs cs (by simpa [hxy] using hab) (by simpa [hyz] using hbc)

theorem char_toNat_inj {c d : Char} (h : c.toNat = d.toNat) : c = d := by
  cases c with | mk cv hc => cases d with | mk dv hd =>
  simp only [Char.toNat] at h
  congr 1
  exact UInt32.toNat.inj h

theorem charWeights_inj {c d : Char}
    (hp : primaryWeight c = primaryWeight d) (ht : tertiaryWeight c = tertiaryWeight d) :
    c = d := by
  apply char_toNat_inj
  simp only [primaryWeight, tertiaryWeight] at hp ht
  rcases Nat.lt_or_ge c.toNat 128 with hc | hc <;>
    rcases Nat.lt_or_ge d.toNat 128 with hd | hd <;>
      split_ifs at hp ht <;> omega

theorem mapWeights_inj : ∀ as bs : List Char,
    as.map primaryWeight = bs.map primaryWeight →
    as.map tertiaryWeight = bs.map tertiaryWeight → as = bs
  | [], [], _, _ => rfl
  | [], _ :: _, hp, _ => by simp at hp
  | _ :: _, [], hp, _ => by simp at hp
  | a :: as, b :: bs, hp, ht => by
    simp only [List.map_cons, List.cons.injEq] at hp ht
    have hab := charWeights_inj hp.1 ht.1
    subst hab
    simp [mapWeights_inj as bs hp.2 ht.2]

theorem collationKey_inj {a b : String} (h : collationKey a = collationKey b) : a = b := by
  cases a with | mk as => cases b with | mk bs =>
  simp only [collationKey] at h
  have hlen : as.length = bs.length := by
    have := congrArg List.length h
    simp at this
    omega
  have hsplit := List.append_inj h (by simp [hlen])
  congr 1
  exact mapWeights_inj as bs hsplit.1 (List.cons.inj hsplit.2).2

/-! ## `md5Signature` (src/unnamed/part_000 lines 35-40)

Parameters are the entries of a JS object: an ordered association list with
pairwise-distinct keys; a value of `none` models `undefined`/`null` (dropped
by the filter).  `Array.prototype.sort` with the `localeCompare` comparator
is modelled as a sort with respect to `sigLe`. -/

/-- The comparator `(a, b) => String(a[0]).localeCompare(String(b[0]))`,
read as "a sorts no later than b". -/
def sigLe (a b : String × String) : Prop := localeLe a.1 b.1 = true

instance : DecidableRel sigLe := fun a b => by unfold sigLe; infer_instance

instance : IsTotal (String × String) sigLe := by
  constructor
  intro a b
  simp only [sigLe, localeLe, localeCompare, decide_eq_true_eq, ne_eq]
  rcases h : lexCmp (collationKey a.1) (collationKey b.1) with _ | _ | _
  · left; simp [h]
  · left; simp [h]
  · right
    rw [lexCmp_swap, h]
    simp [Ordering.swap]

instance : IsTrans (String × String) sigLe := by
  constructor
  intro a b c hab hbc
  simp only [sigLe, localeLe, localeCompare, decide_eq_true_eq, ne_eq] at hab hbc ⊢
  exact lexCmp_trans_le _ _ _ hab hbc

/-- `md5Signature(params)`: drop null/undefined entries, sort by the
`localeCompare` comparator, join as `key=value` with `&`, MD5 in lowercase
hex. -/
def md5Signature (params : List (String × Option String)) : String :=
  let entries := params.filterMap fun p => p.2.map fun v => (p.1, v)
  let sorted := List.insertionSort sigLe entries
  let signText := String.intercalate "&" (sorted.map fun kv => kv.1 ++ "=" ++ kv.2)
  md5Hex signText

/-- Ordinal (code-point lexicographic) string comparison, "a ≤ b". -/
def ordinalLe (a b : String) : Bool := lexCmp (strBytes a) (strBytes b) ≠ Ordering.gt

/-- Modelled from the spec: the signature as the claim describes it, with
the surviving entries sorted by ordinal (code-point) string comparison
instead of the comparator the code uses. -/
def ordinalSignature (params : List (String × Option String)) : String :=
  let entries := params.filterMap fun p => p.2.map fun v => (p.1, v)
  let sorted := List.insertionSort (fun a b : String × String => ordinalLe a.1 b.1 = true) entries
  let signText := String.intercalate "&" (sorted.map fun kv => kv.1 ++ "=" ++ kv.2)
  md5Hex signText

/-- The keys of the surviving (non-null) entries form a sublist of the
parameter keys. -/
theorem sigEntries_keys_sublist (params : List (String × Option String)) :
    ((params.filterMap fun p => p.2.map fun v => (p.1, v)).map Prod.fst).Sublist
      (params.map Prod.fst) := by
  induction params with
  | nil => simp
  | cons p ps ih =>
    cases h : p.2 with
    | none =>
      have hstep : (p :: ps).filterMap (fun q => q.2.map fun v => (q.1, v)) =
          ps.filterMap fun q => q.2.map fun v => (q.1, v) := by
        simp [List.filterMap_cons, h]
      rw [hstep, List.map_cons]
      exact ih.cons _
    | some v =>
      have hstep : (p :: ps).filterMap (fun q => q.2.map fun v => (q.1, v)) =
          (p.1, v) :: ps.filterMap fun q => q.2.map fun v => (q.1, v) := by
        simp [List.filterMap_cons, h]
      rw [hstep, List.map_cons, List.map_cons]
      exact ih.cons₂ _

set_option maxRecDepth 10000 in
/-- C3, counterexample.  The open-API signature of the parameter map
`{Timestamp: "1", dt: "1"}` is the digest of "dt=1&Timestamp=1" — the keys
sorted by `localeCompare`, which puts "dt" before "Timestamp" — and differs
from the digest the claim specifies, over the ordinal key order in which
"Timestamp" (capital T, code point 84) precedes "dt". -/
theorem claim3_counterexample :
    md5Signature [("Timestamp", some "1"), ("dt", some "1")] = md5Hex "dt=1&Timestamp=1" ∧
    ordinalSignature [("Timestamp", some "1"), ("dt", some "1")] = md5Hex "Timestamp=1&dt=1" ∧
    md5Signature [("Timestamp", some "1"), ("dt", some "1")] ≠
      ordinalSignature [("Timestamp", some "1"), ("dt", some "1")] := by
  refine ⟨by decide, by decide, by decide⟩

/-- C3, amended.  The signature is the lowercase-hex MD5 of the `key=value`
pairs joined with "&" after dropping null/undefined entries and sorting by
the `localeCompare` comparator (not ordinal comparison); in particular, for
parameter maps with pairwise-distinct keys — as every JS object has — the
signature is invariant under any reordering of the input key-value pairs. -/
theorem claim3_invariance (p₁ p₂ : List (String × Option String))
    (hperm : p₁.Perm p₂) (hkeys : (p₁.map Prod.fst).Nodup) :
    md5Signature p₁ = md5Signature p₂ := by
  have hent : (p₁.filterMap fun p => p.2.map fun v => (p.1, v)).Perm
      (p₂.filterMap fun p => p.2.map fun v => (p.1, v)) := hperm.filterMap _
  have hnd₁ : ((p₁.filterMap fun p => p.2.map fun v => (p.1, v)).map Prod.fst).Nodup :=
    hkeys.sublist (sigEntries_keys_sublist p₁)
  have hps₁ := List.perm_insertionSort sigLe (p₁.filterMap fun p => p.2.map fun v => (p.1, v))
  have hps₂ := List.perm_insertionSort sigLe (p₂.filterMap fun p => p.2.map fun v => (p.1, v))
  have hperm' := (hps₁.trans hent).trans hps₂.symm
  have hr : ∀ l : List (String × String), (l.map Prod.fst).Nodup →
      List.Sorted sigLe l →
      List.Sorted (fun a b : String × String => sigLe a b ∧ a.1 ≠ b.1) l := by
    intro l hnd hsort
    exact hsort.and (List.pairwise_map.mp hnd)
  haveI : IsAntisymm (String × String)
      (fun a b : String × String => sigLe a b ∧ a.1 ≠ b.1) := by
    constructor
    intro a b hab hba
    exfalso
    apply hab.2
    have h₁ : lexCmp (collationKey a.1) (collationKey b.1) ≠ Ordering.gt := by
      have := hab.1
      simpa [sigLe, localeLe, localeCompare] using this
    have h₂ : lexCmp (collationKey b.1) (collationKey a.1) ≠ Ordering.gt := by
      have := hba.1
      simpa [sigLe, localeLe, localeCompare] using this
    rw [lexCmp_swap] at h₂
    have heq : lexCmp (collationKey a.1) (collationKey b.1) = .eq := by
      rcases h : lexCmp (collationKey a.1) (collationKey b.1) with _ | _ | _
      · rw [h] at h₂; simp [Ordering.swap] at h₂
      · rfl
      · exact absurd h h₁
    exact collationKey_inj ((lexCmp_eq_iff _ _).mp heq)
  have hnd₁' := (hps₁.map Prod.fst).nodup_iff.mpr hnd₁
  have hnd₂' := (hps₂.map Prod.fst).nodup_iff.mpr (((hent.map Prod.fst).nodup_iff).mp hnd₁)
  have key : List.insertionSort sigLe (p₁.filterMap fun p => p.2.map fun v => (p.1, v)) =
      List.insertionSort sigLe (p₂.filterMap fun p => p.2.map fun v => (p.1, v)) :=
    List.eq_of_perm_of_sorted hperm'
      (hr _ hnd₁' (List.sorted_insertionSort sigLe _))
      (hr _ hnd₂' (List.sorted_insertionSort sigLe _))
  simp only [md5Signature]
  rw [key]

set_option maxRecDepth 10000 in
/-- C3, witness: the invariance theorem applied to a concrete reordering of
a two-entry parameter map. -/
theorem claim3_witness :
    md5Signature [("pageNum", some "1"), ("folderId", some "-11")] =
      md5Signature [("folderId", some "-11"), ("pageNum", some "1")] :=
  claim3_invariance _ _ (by decide) (by decide)

/-! ## Chunked upload engine (src/unnamed/part_000, `uploadFileSlices`)

The file is a byte list; `digest` abstracts `crypto.createHash("md5")`
(the incremental hasher's final digest equals the digest of the
concatenation of everything fed to `update`). -/

def DEFAULT_SLICE_SIZE : Nat := 10 * 1024 * 1024

/-- `Math.max(1024 * 1024, Number(sliceSize || DEFAULT_SLICE_SIZE))`:
a falsy (absent/zero) slice size falls back to the default, and a 1 MiB
floor is enforced. -/
def effectiveChunkSize (sliceSize : Nat) : Nat :=
  max (1024 * 1024) (if sliceSize = 0 then DEFAULT_SLICE_SIZE else sliceSize)

/-- Modelled from the spec: `ceil(fileSize / chunkSize)` as exact natural
ceiling division, the chunk count the claim asserts. -/
def specCeilDiv (fileSize chunkSize : Nat) : Nat := (fileSize + chunkSize - 1) / chunkSize

/-- `Math.max(1, Math.ceil(fileSize / chunkSize))` (line 565). -/
def numChunks (fileSize chunkSize : Nat) : Nat := max 1 (specCeilDiv fileSize chunkSize)

/-- Part `i` (1-based): `min(chunkSize, fileSize - offset)` bytes read at
offset `(i - 1) * chunkSize` (lines 596-600). -/
def chunkOf (file : List Nat) (chunkSize i : Nat) : List Nat :=
  (file.drop ((i - 1) * chunkSize)).take
    (min chunkSize (file.length - (i - 1) * chunkSize))

/-- The part loop (lines 595-639), restricted to its checksum bookkeeping:
starting at part `i` for `n` parts, the per-part uppercase-hex digests
pushed in order and the bytes fed to the running whole-file hasher. -/
def partLoop (digest : List Nat → List Nat) (file : List Nat) (chunkSize : Nat) :
    Nat → Nat → List String × List Nat
  | _, 0 => ([], [])
  | i, n + 1 =>
    let ch := chunkOf file chunkSize i
    let rest := partLoop digest file chunkSize (i + 1) n
    (hexUpper (digest ch) :: rest.1, ch ++ rest.2)

structure UploadChecksums where
  chunkCount : Nat
  md5PartHexUpper : List String
  fileMd5 : String
  sliceMd5 : String

/-- The checksum computation of `uploadFileSlices` (lines 562-565, 591-606,
644-647): chunk size and count, the per-part digests, the whole-file digest
`fileMd5`, and the `sliceMd5` sent to commit. -/
def uploadFileSlicesChecksums (digest : List Nat → List Nat) (file : List Nat)
    (sliceSize : Nat) : UploadChecksums :=
  let fileSize := file.length
  let chunkSize := effectiveChunkSize sliceSize
  let chunkCount := numChunks fileSize chunkSize
  let loop := partLoop digest file chunkSize 1 chunkCount
  let fileMd5 := hexLower (digest loop.2)
  let sliceMd5 :=
    if fileSize ≤ chunkSize then fileMd5
    else hexLower (digest (strBytes (String.intercalate "\n" loop.1)))
  ⟨chunkCount, loop.1, fileMd5, sliceMd5⟩

theorem chunkOf_eq_take_drop (file : List Nat) (c i : Nat) :
    chunkOf file c i = (file.drop ((i - 1) * c)).take c := by
  unfold chunkOf
  rw [List.take_eq_take]
  simp [List.length_drop]

theorem partLoop_fst (digest : List Nat → List Nat) (file : List Nat) (c : Nat) :
    ∀ n i, (partLoop digest file c i n).1 =
      (List.range n).map fun k => hexUpper (digest (chunkOf file c (i + k))) := by
  intro n
  induction n with
  | zero => intro i; simp [partLoop]
  | succ m ih =>
    intro i
    rw [List.range_succ_eq_map]
    simp only [partLoop, List.map_cons, List.map_map]
    congr 1
    rw [ih (i + 1)]
    apply List.map_congr_left
    intro k _
    simp only [Function.comp]
    have hidx : i + (k + 1) = i + 1 + k := by omega
    rw [hidx]

theorem partLoop_snd (digest : List Nat → List Nat) (file : List Nat) (c : Nat) :
    ∀ n i, (partLoop digest file c i n).2 =
      ((List.range n).map fun k => chunkOf file c (i + k)).flatten := by
  intro n
  induction n with
  | zero => intro i; simp [partLoop]
  | succ m ih =>
    intro i
    rw [List.range_succ_eq_map]
    simp only [partLoop, List.map_cons, List.map_map, List.flatten_cons]
    congr 1
    rw [ih (i + 1)]
    congr 1
    apply List.map_congr_left
    intro k _
    simp only [Function.comp]
    have hidx : i + (k + 1) = i + 1 + k := by omega
    rw [hidx]

theorem chunkOf_shift (file : List Nat) (c k : Nat) :
    chunkOf file c (k + 2) = chunkOf (file.drop c) c (k + 1) := by
  rw [chunkOf_eq_take_drop, chunkOf_eq_take_drop, List.drop_drop]
  have h1 : k + 1 - 1 = k := by omega
  have h2 : k + 2 - 1 = k + 1 := by omega
  rw [h1, h2]
  congr 2
  ring

/-- Coverage: as long as `n` chunks suffice for the whole file, the
concatenation of chunks `1..n` is exactly the file. -/
theorem chunks_cover (c : Nat) :
    ∀ (n : Nat) (file : List Nat), file.length ≤ n * c →
      ((List.range n).map fun k => chunkOf file c (k + 1)).flatten = file := by
  intro n
  induction n with
  | zero =>
    intro file h
    simp only [Nat.zero_mul, Nat.le_zero] at h
    simp [List.eq_nil_of_length_eq_zero h]
  | succ m ih =>
    intro file h
    rw [List.range_succ_eq_map]
    simp only [List.map_cons, List.map_map, List.flatten_cons]
    have hhead : chunkOf file c 1 = file.take c := by
      rw [chunkOf_eq_take_drop]
      simp
    have hmap : List.map ((fun k => chunkOf file c (k + 1)) ∘ (· + 1)) (List.range m) =
        (List.range m).map fun k => chunkOf (file.drop c) c (k + 1) := by
      apply List.map_congr_left
      intro k _
      simp only [Function.comp]
      have hidx : k + 1 + 1 = k + 2 := by omega
      rw [hidx, chunkOf_shift]
    have hlen : (file.drop c).length ≤ m * c := by
      simp only [List.length_drop]
      have hmc : (m + 1) * c = m * c + c := by ring
      omega
    rw [hhead, hmap, ih (file.drop c) hlen, List.take_append_drop]

theorem numChunks_mul_ge (fileSize c : Nat) (hc : 0 < c) :
    fileSize ≤ numChunks fileSize c * c := by
  unfold numChunks specCeilDiv
  have h1 := Nat.div_add_mod (fileSize + c - 1) c
  have h2 := Nat.mod_lt (fileSize + c - 1) hc
  rcases Nat.eq_zero_or_pos ((fileSize + c - 1) / c) with hq0 | hqpos
  · rw [hq0]
    rw [hq0] at h1
    simp at h1
    simp [Nat.max_def]
    omega
  · have hmax : max 1 ((fileSize + c - 1) / c) = (fileSize + c - 1) / c := by omega
    rw [hmax]
    have key : ∀ T, T + (fileSize + c - 1) % c = fileSize + c - 1 → fileSize ≤ T := by
      intro T hT
      omega
    exact key _ (by rw [Nat.mul_comm]; exact h1)

theorem effectiveChunkSize_pos (s : Nat) : 0 < effectiveChunkSize s := by
  unfold effectiveChunkSize
  have := Nat.le_max_left (1024 * 1024) (if s = 0 then DEFAULT_SLICE_SIZE else s)
  omega

/-- The bytes fed to the running whole-file hasher are exactly the file. -/
theorem partLoop_hasher_input (digest : List Nat → List Nat) (file : List Nat) (s : Nat) :
    (partLoop digest file (effectiveChunkSize s) 1
      (numChunks file.length (effectiveChunkSize s))).2 = file := by
  rw [partLoop_snd]
  have := chunks_cover (effectiveChunkSize s) (numChunks file.length (effectiveChunkSize s))
    file (numChunks_mul_ge _ _ (effectiveChunkSize_pos s))
  simpa [Nat.add_comm 1] using this

/-- C1: the `sliceMd5` sent to commit.  The whole-file digest `fileMd5` is
the digest of the file; when the file fits in one chunk `sliceMd5` equals
it, and otherwise `sliceMd5` is the digest of the per-chunk uppercase-hex
digests, ordered by part index 1..N, joined with a single "\n". -/
theorem claim1_sliceMd5 (digest : List Nat → List Nat) (file : List Nat) (sliceSize : Nat) :
    (uploadFileSlicesChecksums digest file sliceSize).fileMd5 = hexLower (digest file) ∧
    (uploadFileSlicesChecksums digest file sliceSize).sliceMd5 =
      if file.length ≤ effectiveChunkSize sliceSize then hexLower (digest file)
      else hexLower (digest (strBytes (String.intercalate "\n"
        ((List.range (numChunks file.length (effectiveChunkSize sliceSize))).map
          fun k => hexUpper (digest (chunkOf file (effectiveChunkSize sliceSize) (k + 1))))))) := by
  constructor
  · simp only [uploadFileSlicesChecksums]
    rw [partLoop_hasher_input]
  · simp only [uploadFileSlicesChecksums]
    rw [partLoop_hasher_input, partLoop_fst]
    simp [Nat.add_comm 1]

/-- C2, counterexample: for an empty file (size 0) with the default chunk
size, the code produces 1 part while `ceil(0 / C) = 0`. -/
theorem claim2_counterexample :
    (uploadFileSlicesChecksums (fun _ => []) [] 0).chunkCount = 1 ∧
    specCeilDiv (List.length ([] : List Nat)) (effectiveChunkSize 0) = 0 := by
  constructor
  · rfl
  · decide

/-- C2, amended: the number of parts is `max(1, ceil(S / C))`, which equals
`ceil(S / C)` whenever the file is non-empty; part numbers 1..N are
contiguous (one bookkeeping entry per part); part `i` consists of exactly
`min(C, S - (i-1)*C)` bytes read at offset `(i-1)*C`; and the concatenation
of the chunk byte ranges in part order covers the file exactly, with no
gaps or overlaps. -/
theorem claim2_chunking (digest : List Nat → List Nat) (file : List Nat) (sliceSize : Nat) :
    (uploadFileSlicesChecksums digest file sliceSize).chunkCount =
      max 1 (specCeilDiv file.length (effectiveChunkSize sliceSize)) ∧
    (file.length ≠ 0 →
      (uploadFileSlicesChecksums digest file sliceSize).chunkCount =
        specCeilDiv file.length (effectiveChunkSize sliceSize)) ∧
    (uploadFileSlicesChecksums digest file sliceSize).md5PartHexUpper.length =
      (uploadFileSlicesChecksums digest file sliceSize).chunkCount ∧
    (∀ i, 1 ≤ i →
      (chunkOf file (effectiveChunkSize sliceSize) i).length =
        min (effectiveChunkSize sliceSize)
          (file.length - (i - 1) * effectiveChunkSize sliceSize)) ∧
    ((List.range (uploadFileSlicesChecksums digest file sliceSize).chunkCount).map
      fun k => chunkOf file (effectiveChunkSize sliceSize) (k + 1)).flatten = file := by
  refine ⟨rfl, ?_, ?_, ?_, ?_⟩
  · intro hne
    simp only [uploadFileSlicesChecksums, numChunks]
    have hc := effectiveChunkSize_pos sliceSize
    have hone : 1 ≤ specCeilDiv file.length (effectiveChunkSize sliceSize) := by
      unfold specCeilDiv
      rw [Nat.one_le_div_iff hc]
      omega
    omega
  · simp only [uploadFileSlicesChecksums]
    rw [partLoop_fst]
    simp
  · intro i hi
    unfold chunkOf
    simp only [List.length_take, List.length_drop]
    generalize (i - 1) * effectiveChunkSize sliceSize = off
    omega
  · exact chunks_cover _ _ _ (numChunks_mul_ge _ _ (effectiveChunkSize_pos sliceSize))

/-! ## A model of loosely-typed JavaScript values

Shared by the response-payload checks and the deep-key search.  Objects and
arrays live in an explicit heap so that reference identity — what the
visited set of the deep search is keyed on — and cyclic object graphs are
representable. -/

/-- A JavaScript value: primitives, or a reference into the heap. -/
inductive JVal where
  | undefv
  | null
  | bool (b : Bool)
  | num (n : Int)
  | str (s : String)
  | ref (r : Nat)
deriving DecidableEq, Repr

/-- A heap node: a plain object with ordered fields, or an array. -/
inductive JNode where
  | obj (fields : List (String × JVal))
  | arr (elems : List JVal)
deriving DecidableEq, Repr

/-- The heap: node `r` is the object `JVal.ref r` points at. -/
abbrev Heap := List JNode

/-- Dereference (JS references never dangle; a default placates `getD`). -/
def deref (h : Heap) (r : Nat) : JNode := h.getD r (JNode.obj [])

/-- ASCII whitespace, the characters `trim()` strips in the strings this
program handles. -/
def isWsChar (c : Char) : Bool :=
  c = ' ' ∨ c = '\t' ∨ c = '\n' ∨ c = '\r' ∨ c = '\x0b' ∨ c = '\x0c'

/-- `s.trim()`: strip leading and trailing whitespace. -/
def jsTrim (s : String) : String :=
  String.mk ((((s.data.dropWhile isWsChar).reverse).dropWhile isWsChar).reverse)

/-- JS truthiness. -/
def jsTruthy : JVal → Bool
  | .undefv => false
  | .null => false
  | .bool b => b
  | .num n => n ≠ 0
  | .str s => s ≠ ""
  | .ref _ => true

/-- `String(v)`.  Stringification of a heap object (`"[object Object]"`,
array joins, …) is runtime behaviour abstracted as `refStr`. -/
def jsToString (refStr : Nat → String) : JVal → String
  | .undefv => "undefined"
  | .null => "null"
  | .bool b => if b then "true" else "false"
  | .num n => toString n
  | .str s => s
  | .ref r => refStr r

/-- `String(v || "")`. -/
def jsStrOrEmpty (refStr : Nat → String) (v : JVal) : String :=
  if jsTruthy v then jsToString refStr v else ""

/-- Property access `fields.k` (JS object keys are pairwise distinct). -/
def lookupField (fields : List (String × JVal)) (k : String) : JVal :=
  match fields.find? fun f => f.1 = k with
  | some f => f.2
  | none => .undefv

/-- `undefined` and `null`: the values `??` skips over. -/
def nullish : JVal → Bool
  | .undefv => true
  | .null => true
  | _ => false

/-- `a ?? b`. -/
def coalesce (a b : JVal) : JVal := if nullish a then b else a

/-- `firstString(...values)` (src/unnamed/part_000 lines 89-95): the first
value whose `String(v || "").trim()` is non-empty, else "". -/
def firstString (refStr : Nat → String) : List JVal → String
  | [] => ""
  | v :: rest =>
    let text := jsTrim (jsStrOrEmpty refStr v)
    if text ≠ "" then text else firstString refStr rest

/-! ## `ensureSuccessPayload` (src/unnamed/part_000 lines 97-116) -/

/-- `payload.res_code ?? payload.resCode ?? payload.code ?? payload.errorCode`
(line 101). -/
def resultCodeRaw (fields : List (String × JVal)) : JVal :=
  coalesce (lookupField fields "res_code")
    (coalesce (lookupField fields "resCode")
      (coalesce (lookupField fields "code") (lookupField fields "errorCode")))

/-- `String(codeRaw === undefined || codeRaw === null ? "" : codeRaw).trim()`
(line 102). -/
def resultCodeText (refStr : Nat → String) (fields : List (String × JVal)) : String :=
  jsTrim (if nullish (resultCodeRaw fields) then "" else jsToString refStr (resultCodeRaw fields))

/-- `ensureSuccessPayload(payload, action)`: throws on non-object payloads
and on present, non-empty result codes outside {"0", "SUCCESS", "success"}. -/
def ensureSuccessPayload (refStr : Nat → String) (h : Heap) (payload : JVal)
    (action : String) : Except String Unit :=
  match payload with
  | .ref r =>
    match deref h r with
    | .arr _ => .error (action ++ " 返回格式异常")
    | .obj fields =>
      let code := resultCodeText refStr fields
      if code ≠ "" ∧ code ∉ ["0", "SUCCESS", "success"] then
        let msg := firstString refStr
          [lookupField fields "msg", lookupField fields "message",
           lookupField fields "res_message", lookupField fields "resMessage",
           lookupField fields "errorMsg", lookupField fields "errorMessage",
           lookupField fields "desc", lookupField fields "description"]
        .error (action ++ " 失败 code=" ++ code ++ (if msg ≠ "" then " msg=" ++ msg else ""))
      else .ok ()
  | _ => .error (action ++ " 返回格式异常")

/-- C9: on a JSON-object payload the check succeeds exactly when the result
code — the first non-nullish of res_code, resCode, code, errorCode — is
absent/null (so its text is empty), trims to the empty string, or trims
into {"0", "SUCCESS", "success"}; in particular a payload with none of the
four fields always passes. -/
theorem claim9_ensureSuccess (refStr : Nat → String) (h : Heap)
    (fields : List (String × JVal)) (action : String) :
    (ensureSuccessPayload refStr (JNode.obj fields :: h) (.ref 0) action = .ok () ↔
      resultCodeText refStr fields = "" ∨
        resultCodeText refStr fields ∈ ["0", "SUCCESS", "success"]) ∧
    (nullish (resultCodeRaw fields) = true →
      ensureSuccessPayload refStr (JNode.obj fields :: h) (.ref 0) action = .ok ()) := by
  have hder : deref (JNode.obj fields :: h) 0 = JNode.obj fields := rfl
  have hempty_trim : jsTrim "" = "" := by decide
  constructor
  · simp only [ensureSuccessPayload, hder]
    split_ifs with hcond
    · constructor
      · intro hcontra
        exact absurd hcontra (by simp)
      · intro hor
        exfalso
        rcases hor with h1 | h1
        · exact hcond.1 h1
        · exact hcond.2 h1
    · constructor
      · intro _
        by_cases hempty : resultCodeText refStr fields = ""
        · exact Or.inl hempty
        · right
          by_contra hmem
          exact hcond ⟨hempty, hmem⟩
      · intro _
        rfl
  · intro hnull
    simp only [ensureSuccessPayload, hder]
    have htext : resultCodeText refStr fields = "" := by
      unfold resultCodeText
      rw [hnull]
      simpa using hempty_trim
    simp [htext]

/-! ## Deep key search (src/backend/tianyi_share_resolver.js lines 48-107)

`getDeepString` and `getDeepArray` share one traversal: an explicit stack of
object references popped from the top, a visited set keyed on reference
identity, arrays pushing their object elements, objects scanning their
entries in order — returning on the first usable match — and then pushing
their object-valued entries.  Pushes that the code performs before an early
return are discarded here together with the stack, which leaves the result
unchanged. -/

/-- `toLowerCase()` for the ASCII strings this program searches for. -/
def lowerChar (c : Char) : Char :=
  if 65 ≤ c.toNat ∧ c.toNat ≤ 90 then Char.ofNat (c.toNat + 32) else c

def lowerStr (s : String) : String := String.mk (s.data.map lowerChar)

def JVal.isRef : JVal → Bool
  | .ref _ => true
  | _ => false

/-- `for (const item of …) if (item && typeof item === "object") stack.push(item)`:
object references are pushed in order, so the last lands on top. -/
def pushRefs (vs : List JVal) (stack : List Nat) : List Nat :=
  vs.foldl (fun st v => match v with | .ref r => r :: st | _ => st) stack

/-- Scan an object's entries in order and return the first hit. -/
def scanHit (hit : String → JVal → Option α) : List (String × JVal) → Option α
  | [] => none
  | (k, v) :: rest =>
    match hit k v with
    | some a => some a
    | none => scanHit hit rest

/-- The shared traversal, with explicit fuel: `none` = fuel exhausted,
`some none` = stack drained without a hit, `some (some a)` = first hit. -/
def deepLoop (h : Heap) (hit : String → JVal → Option α) :
    Nat → List Nat → List Nat → Option (Option α)
  | 0, _, _ => none
  | _ + 1, [], _ => some none
  | fuel + 1, r :: rest, visited =>
    if r ∈ visited then deepLoop h hit fuel rest visited
    else
      match deref h r with
      | .arr elems => deepLoop h hit fuel (pushRefs elems rest) (r :: visited)
      | .obj fields =>
        match scanHit hit fields with
        | some a => some (some a)
        | none => deepLoop h hit fuel (pushRefs (fields.map Prod.snd) rest) (r :: visited)

/-- The traversal's examination sequence: every object entry inspected, in
order, with no early return. -/
def deepTrace (h : Heap) : Nat → List Nat → List Nat → Option (List (String × JVal))
  | 0, _, _ => none
  | _ + 1, [], _ => some []
  | fuel + 1, r :: rest, visited =>
    if r ∈ visited then deepTrace h fuel rest visited
    else
      match deref h r with
      | .arr elems => deepTrace h fuel (pushRefs elems rest) (r :: visited)
      | .obj fields =>
        (deepTrace h fuel (pushRefs (fields.map Prod.snd) rest) (r :: visited)).map
          (fields ++ ·)

/-- References a node can push: its object-valued entries or elements. -/
def nodeRefCount : JNode → Nat
  | .obj fields => ((fields.map Prod.snd).filter JVal.isRef).length
  | .arr elems => (elems.filter JVal.isRef).length

/-- Total push potential of the nodes not yet visited. -/
def unvisitedWeight (h : Heap) (visited : List Nat) : Nat :=
  (((List.range h.length).filter fun x => ¬ x ∈ visited).map fun r =>
    nodeRefCount (deref h r)).sum

/-- Fuel that provably suffices for the traversal from `stack`. -/
def deepFuel (h : Heap) (stack : List Nat) : Nat :=
  stack.length + unvisitedWeight h [] + 1

theorem pushRefs_length : ∀ (vs : List JVal) (stack : List Nat),
    (pushRefs vs stack).length = (vs.filter JVal.isRef).length + stack.length := by
  intro vs
  induction vs with
  | nil => intro stack; simp [pushRefs]
  | cons v rest ih =>
    intro stack
    cases v with
    | ref r =>
      have : pushRefs (JVal.ref r :: rest) stack = pushRefs rest (r :: stack) := rfl
      rw [this, ih]
      simp [JVal.isRef, List.filter_cons]
      omega
    | undefv =>
      have : pushRefs (JVal.undefv :: rest) stack = pushRefs rest stack := rfl
      rw [this, ih]
      simp [JVal.isRef, List.filter_cons]
    | null =>
      have : pushRefs (JVal.null :: rest) stack = pushRefs rest stack := rfl
      rw [this, ih]
      simp [JVal.isRef, List.filter_cons]
    | bool b =>
      have : pushRefs (JVal.bool b :: rest) stack = pushRefs rest stack := rfl
      rw [this, ih]
      simp [JVal.isRef, List.filter_cons]
    | num n =>
      have : pushRefs (JVal.num n :: rest) stack = pushRefs rest stack := rfl
      rw [this, ih]
      simp [JVal.isRef, List.filter_cons]
    | str s =>
      have : pushRefs (JVal.str s :: rest) stack = pushRefs rest stack := rfl
      rw [this, ih]
      simp [JVal.isRef, List.filter_cons]

theorem deref_lt_of_ne_default {h : Heap} {r : Nat} (hne : deref h r ≠ JNode.obj []) :
    r < h.length := by
  by_contra hge
  push_neg at hge
  exact hne (List.getD_eq_default _ _ hge)

theorem filter_cons_noteq (visited : List Nat) (r : Nat) :
    ∀ l : List Nat, ¬ r ∈ l →
      (l.filter fun x => ¬ x ∈ r :: visited) = l.filter fun x => ¬ x ∈ visited := by
  intro l hr
  apply List.filter_congr
  intro x hx
  have hxr : x ≠ r := by
    intro hcontra
    exact hr (hcontra ▸ hx)
  simp [List.mem_cons, hxr]

theorem weight_split_aux (f : Nat → Nat) (visited : List Nat) (r : Nat) :
    ∀ l : List Nat, l.Nodup → r ∈ l → ¬ r ∈ visited →
      ((l.filter fun x => ¬ x ∈ visited).map f).sum =
        f r + ((l.filter fun x => ¬ x ∈ r :: visited).map f).sum := by
  intro l
  induction l with
  | nil => intro _ hr; cases hr
  | cons a l' ih =>
    intro hnd hr hnv
    have hnd' := (List.nodup_cons.mp hnd).2
    have hal' := (List.nodup_cons.mp hnd).1
    by_cases heq : a = r
    · rw [← heq] at hnv ⊢
      rw [List.filter_cons, List.filter_cons]
      have h1 : (decide (¬ a ∈ visited)) = true := by simpa using hnv
      have h2 : (decide (¬ a ∈ a :: visited)) = false := by simp
      rw [h1, h2]
      rw [if_pos rfl, if_neg (by simp)]
      simp only [List.map_cons, List.sum_cons]
      rw [filter_cons_noteq visited a l' hal']
    · have hr' : r ∈ l' := by
        rcases List.mem_cons.mp hr with h' | h'
        · exact absurd h'.symm heq
        · exact h'
      rw [List.filter_cons, List.filter_cons]
      by_cases hav : a ∈ visited
      · have h1 : (decide (¬ a ∈ visited)) = false := by simpa using hav
        have h2 : (decide (¬ a ∈ r :: visited)) = false := by
          simp [List.mem_cons, hav]
        rw [h1, h2]
        rw [if_neg (by simp), if_neg (by simp)]
        exact ih hnd' hr' hnv
      · have h1 : (decide (¬ a ∈ visited)) = true := by simpa using hav
        have h2 : (decide (¬ a ∈ r :: visited)) = true := by
          simp [List.mem_cons, heq, hav]
        rw [h1, h2]
        rw [if_pos rfl, if_pos rfl]
        simp only [List.map_cons, List.sum_cons]
        rw [ih hnd' hr' hnv]
        omega

theorem weight_split (h : Heap) (visited : List Nat) (r : Nat)
    (hlt : r < h.length) (hv : ¬ r ∈ visited) :
    unvisitedWeight h visited =
      nodeRefCount (deref h r) + unvisitedWeight h (r :: visited) := by
  unfold unvisitedWeight
  exact weight_split_aux _ visited r (List.range h.length) (List.nodup_range _)
    (List.mem_range.mpr hlt) hv

theorem weight_out (h : Heap) (visited : List Nat) (r : Nat) (hge : h.length ≤ r) :
    unvisitedWeight h (r :: visited) = unvisitedWeight h visited := by
  unfold unvisitedWeight
  rw [filter_cons_noteq visited r (List.range h.length)
    (by intro hmem; rw [List.mem_range] at hmem; omega)]

/-- The guarded traversal always terminates within the computed fuel, on
every heap — cyclic reference graphs included. -/
theorem deepTrace_isSome (h : Heap) :
    ∀ (fuel : Nat) (stack visited : List Nat),
      stack.length + unvisitedWeight h visited < fuel →
      ∃ tr, deepTrace h fuel stack visited = some tr := by
  intro fuel
  induction fuel with
  | zero => intro stack visited h0; omega
  | succ m ih =>
    intro stack visited hμ
    match stack with
    | [] => exact ⟨[], rfl⟩
    | r :: rest =>
      by_cases hv : r ∈ visited
      · have hstep : deepTrace h (m + 1) (r :: rest) visited = deepTrace h m rest visited := by
          simp [deepTrace, hv]
        rw [hstep]
        apply ih
        simp only [List.length_cons] at hμ
        omega
      · cases hder : deref h r with
        | obj fields =>
          have hstep : deepTrace h (m + 1) (r :: rest) visited =
              (deepTrace h m (pushRefs (fields.map Prod.snd) rest) (r :: visited)).map
                (fields ++ ·) := by
            simp [deepTrace, hv, hder]
          rw [hstep]
          have hmeas : (pushRefs (fields.map Prod.snd) rest).length +
              unvisitedWeight h (r :: visited) < m := by
            rw [pushRefs_length]
            by_cases hlt : r < h.length
            · have hw := weight_split h visited r hlt hv
              rw [hder] at hw
              simp only [nodeRefCount] at hw
              simp only [List.length_cons] at hμ
              omega
            · push_neg at hlt
              have hdef : deref h r = JNode.obj [] := List.getD_eq_default _ _ hlt
              rw [hder] at hdef
              injection hdef with hf
              subst hf
              have hwo := weight_out h visited r hlt
              simp only [List.map_nil, List.filter_nil, List.length_nil,
                List.length_cons] at hμ ⊢
              omega
          obtain ⟨tr, htr⟩ := ih _ _ hmeas
          exact ⟨fields ++ tr, by rw [htr]; rfl⟩
        | arr elems =>
          have hstep : deepTrace h (m + 1) (r :: rest) visited =
              deepTrace h m (pushRefs elems rest) (r :: visited) := by
            simp [deepTrace, hv, hder]
          rw [hstep]
          apply ih
          rw [pushRefs_length]
          have hlt : r < h.length := by
            apply deref_lt_of_ne_default
            rw [hder]
            intro hcontra
            cases hcontra
          have hw := weight_split h visited r hlt hv
          rw [hder] at hw
          simp only [nodeRefCount] at hw
          simp only [List.length_cons] at hμ
          omega

theorem scanHit_append (hit : String → JVal → Option α) :
    ∀ xs ys : List (String × JVal),
      scanHit hit (xs ++ ys) =
        match scanHit hit xs with
        | some a => some a
        | none => scanHit hit ys := by
  intro xs ys
  induction xs with
  | nil => rfl
  | cons f fs ihf =>
    rcases f with ⟨k, v⟩
    simp only [List.cons_append, scanHit]
    cases hit k v
    · exact ihf
    · rfl

/-- With an examination sequence in hand, the early-return loop returns
exactly the first hit in that sequence. -/
theorem deepLoop_eq_scan (h : Heap) (hit : String → JVal → Option α) :
    ∀ (fuel : Nat) (stack visited : List Nat) (tr : List (String × JVal)),
      deepTrace h fuel stack visited = some tr →
      deepLoop h hit fuel stack visited = some (scanHit hit tr) := by
  intro fuel
  induction fuel with
  | zero => intro stack visited tr htr; cases htr
  | succ m ih =>
    intro stack visited tr htr
    match stack with
    | [] =>
      have : tr = [] := by
        have : (some [] : Option (List (String × JVal))) = some tr := htr
        injection this with h'
        exact h'.symm
      rw [this]
      rfl
    | r :: rest =>
      by_cases hv : r ∈ visited
      · have hstep : deepTrace h (m + 1) (r :: rest) visited = deepTrace h m rest visited := by
          simp [deepTrace, hv]
        have hstepL : deepLoop h hit (m + 1) (r :: rest) visited =
            deepLoop h hit m rest visited := by
          simp [deepLoop, hv]
        rw [hstepL]
        exact ih rest visited tr (hstep ▸ htr)
      · cases hder : deref h r with
        | obj fields =>
          have hstep : deepTrace h (m + 1) (r :: rest) visited =
              (deepTrace h m (pushRefs (fields.map Prod.snd) rest) (r :: visited)).map
                (fields ++ ·) := by
            simp [deepTrace, hv, hder]
          rw [hstep] at htr
          rcases hrec : deepTrace h m (pushRefs (fields.map Prod.snd) rest) (r :: visited) with
            _ | tr'
          · rw [hrec] at htr; cases htr
          · rw [hrec] at htr
            have htr' : fields ++ tr' = tr := by
              simpa using htr
            have hscan_app := scanHit_append hit fields tr'
            cases hhit : scanHit hit fields with
            | some a =>
              have hstepL : deepLoop h hit (m + 1) (r :: rest) visited = some (some a) := by
                simp [deepLoop, hv, hder, hhit]
              rw [hstepL, ← htr', hscan_app, hhit]
            | none =>
              have hstepL : deepLoop h hit (m + 1) (r :: rest) visited =
                  deepLoop h hit m (pushRefs (fields.map Prod.snd) rest) (r :: visited) := by
                simp [deepLoop, hv, hder, hhit]
              rw [hstepL, ih _ _ tr' hrec, ← htr', hscan_app, hhit]
        | arr elems =>
          have hstep : deepTrace h (m + 1) (r :: rest) visited =
              deepTrace h m (pushRefs elems rest) (r :: visited) := by
            simp [deepTrace, hv, hder]
          have hstepL : deepLoop h hit (m + 1) (r :: rest) visited =
              deepLoop h hit m (pushRefs elems rest) (r :: visited) := by
            simp [deepLoop, hv, hder]
          rw [hstepL]
          exact ih _ _ tr (hstep ▸ htr)

/-- The per-entry test of `getDeepString` (lines 67-72): a wanted key
(case-insensitively) whose `String(value || "").trim()` is non-empty. -/
def stringHit (refStr : Nat → String) (wanted : List String) (k : String) (v : JVal) :
    Option String :=
  if lowerStr k ∈ wanted then
    let text := jsTrim (jsStrOrEmpty refStr v)
    if text ≠ "" then some text else none
  else none

/-- The per-entry test of `getDeepArray` (lines 99-102): a wanted key whose
value is an array. -/
def arrayHit (h : Heap) (wanted : List String) (k : String) (v : JVal) :
    Option (List JVal) :=
  if lowerStr k ∈ wanted then
    match v with
    | .ref r =>
      match deref h r with
      | .arr elems => some elems
      | .obj _ => none
    | _ => none
  else none

/-- `getDeepString(payload, keys)` (lines 48-78): "" for non-object
payloads, else the first usable wanted entry of the guarded traversal. -/
def getDeepString (refStr : Nat → String) (h : Heap) (payload : JVal)
    (keys : List String) : String :=
  match payload with
  | .ref root =>
    match deepLoop h (stringHit refStr (keys.map lowerStr)) (deepFuel h [root]) [root] [] with
    | some (some s) => s
    | _ => ""
  | _ => ""

/-- `getDeepArray(payload, keys)` (lines 80-107). -/
def getDeepArray (h : Heap) (payload : JVal) (keys : List String) : List JVal :=
  match payload with
  | .ref root =>
    match deepLoop h (arrayHit h (keys.map lowerStr)) (deepFuel h [root]) [root] [] with
    | some (some vs) => vs
    | _ => []
  | _ => []

/-- The full examination sequence of the traversal from `payload`. -/
def deepTraceOf (h : Heap) (payload : JVal) : Option (List (String × JVal)) :=
  match payload with
  | .ref root => deepTrace h (deepFuel h [root]) [root] []
  | _ => some []

/-- C8: for every heap — cyclic object graphs included — the visited-set
guarded deep search terminates: the traversal's examination sequence exists
(`some`), and `getDeepString` / `getDeepArray` each return the first entry
of that sequence whose key matches a wanted name case-insensitively with a
usable value (non-empty trimmed text, resp. an array), or the empty
default when no entry matches. -/
theorem claim8_deepSearch (refStr : Nat → String) (h : Heap) (payload : JVal)
    (keys : List String) :
    ∃ tr, deepTraceOf h payload = some tr ∧
      getDeepString refStr h payload keys =
        (scanHit (stringHit refStr (keys.map lowerStr)) tr).getD "" ∧
      getDeepArray h payload keys =
        (scanHit (arrayHit h (keys.map lowerStr)) tr).getD [] := by
  cases payload with
  | ref root =>
    have hfuel : ([root] : List Nat).length + unvisitedWeight h [] < deepFuel h [root] := by
      unfold deepFuel
      omega
    obtain ⟨tr, htr⟩ := deepTrace_isSome h (deepFuel h [root]) [root] [] hfuel
    refine ⟨tr, htr, ?_, ?_⟩
    · have hloop := deepLoop_eq_scan h (stringHit refStr (keys.map lowerStr))
        (deepFuel h [root]) [root] [] tr htr
      simp only [getDeepString, hloop]
      cases scanHit (stringHit refStr (keys.map lowerStr)) tr <;> rfl
    · have hloop := deepLoop_eq_scan h (arrayHit h (keys.map lowerStr))
        (deepFuel h [root]) [root] [] tr htr
      simp only [getDeepArray, hloop]
      cases scanHit (arrayHit h (keys.map lowerStr)) tr <;> rfl
  | undefv => exact ⟨[], rfl, rfl, rfl⟩
  | null => exact ⟨[], rfl, rfl, rfl⟩
  | bool b => exact ⟨[], rfl, rfl, rfl⟩
  | num n => exact ⟨[], rfl, rfl, rfl⟩
  | str s => exact ⟨[], rfl, rfl, rfl⟩

/-- Concrete check: on a two-node heap with a reference cycle (0 → 1 → 0)
the search terminates and finds the nested `shareId`. -/
theorem getDeepString_cyclic_check :
    getDeepString (fun _ => "[object Object]")
      [JNode.obj [("x", JVal.ref 1)],
       JNode.obj [("y", JVal.ref 0), ("shareId", JVal.str "xyz789")]]
      (JVal.ref 0) ["shareId", "shareID", "shareid"] = "xyz789" := by decide

/-! ## Folder path resolver (src/unnamed/part_000 lines 318-451)

`listFolders` (itself a paged wrapper over the listing endpoint, lines
232-270) and the success-checked creation call are abstracted as an
environment indexed by call number; the resolver's own control flow —
normalisation, lookup, the five-candidate creation fallback, the single
re-listing, and the trace — is embedded directly. -/

def ROOT_FOLDER_ID : String := "-11"

def isSepChar (c : Char) : Bool := c = '/' ∨ c = '\\'

/-- Collapse every run of '/' or '\' into a single '_'
(`.replace(/[\\/]+/g, "_")`); the flag records whether the previous
character was part of a run. -/
def collapseSepsAux : Bool → List Char → List Char
  | _, [] => []
  | prev, c :: rest =>
    if isSepChar c then
      if prev then collapseSepsAux true rest
      else '_' :: collapseSepsAux true rest
    else c :: collapseSepsAux false rest

/-- `normalizeFolderName(value)` (lines 318-321): trim first, then collapse
separator runs to '_'. -/
def normalizeFolderName (value : String) : String :=
  String.mk (collapseSepsAux false (jsTrim value).data)

structure Folder where
  id : String
  name : String
deriving DecidableEq, Repr

structure Candidate where
  endpoint : String
  method : String
  form : List (String × String)
deriving DecidableEq, Repr

/-- `JSON.stringify` escaping for the string literal inside `taskInfos`. -/
def jsonEscape (s : String) : String :=
  String.mk (s.data.flatMap fun c => if c = '\\' ∨ c = '"' then ['\\', c] else [c])

/-- `JSON.stringify([{fileName: String(folderName), isFolder: 1}])`
(line 325). -/
def taskInfosJson (folderName : String) : String :=
  "[\x7b\"fileName\":\"" ++ jsonEscape folderName ++ "\",\"isFolder\":1\x7d]"

/-- The five folder-creation candidate request shapes (lines 326-360), in
their source order. -/
def folderCandidates (parentFolderId folderName : String) : List Candidate :=
  [⟨"/api/open/file/createFolder.action", "POST",
     [("folderName", folderName), ("parentFolderId", parentFolderId)]⟩,
   ⟨"/api/open/file/createFolder.action", "POST",
     [("name", folderName), ("parentFolderId", parentFolderId)]⟩,
   ⟨"/api/open/file/createFolder.action", "POST",
     [("folderName", folderName), ("folderId", parentFolderId)]⟩,
   ⟨"/api/open/batch/createBatchTask.action", "POST",
     [("type", "CREATE_FOLDER"), ("targetFolderId", parentFolderId),
      ("taskInfos", taskInfosJson folderName)]⟩,
   ⟨"/api/open/batch/createBatchTask.action", "POST",
     [("type", "MKDIR"), ("targetFolderId", parentFolderId),
      ("taskInfos", taskInfosJson folderName)]⟩]

structure Attempt where
  ok : Bool
  endpoint : String
  method : String
  error : Option String
deriving DecidableEq, Repr

/-- `shortText` (lines 25-29): escape CR/LF, truncate to 320 characters. -/
def escapeNl (s : String) : String :=
  String.mk (s.data.flatMap fun c =>
    if c = '\r' then ['\\', 'r'] else if c = '\n' then ['\\', 'n'] else [c])

def shortText (value : String) : String :=
  let text := escapeNl value
  if text.length ≤ 320 then text else String.mk (text.data.take 320) ++ "..."

/-- The folder resolver's network environment: the folders returned by the
n-th `listFolders` call and the outcome of the n-th creation request. -/
structure FolderEnv where
  listResp : Nat → List Folder
  createResp : Nat → Except String Unit

/-- The attempt record pushed for one candidate (lines 372-374). -/
def attemptOf (res : Except String Unit) (c : Candidate) : Attempt :=
  match res with
  | .ok _ => ⟨true, c.endpoint, c.method, none⟩
  | .error e => ⟨false, c.endpoint, c.method, some (shortText e)⟩

/-- The candidate loop (lines 362-376): every candidate is attempted in
order — a failure is caught, recorded and the loop continues. -/
def runCandidates (env : FolderEnv) : List Candidate → Nat → List Attempt
  | [], _ => []
  | c :: rest, n => attemptOf (env.createResp n) c :: runCandidates env rest (n + 1)

/-- `createFolderCandidates` (lines 323-379): the recorded attempts and the
new creation-call counter. -/
def createFolderCandidates (env : FolderEnv) (createCalls : Nat)
    (parentFolderId folderName : String) : List Attempt × Nat :=
  (runCandidates env (folderCandidates parentFolderId folderName) createCalls,
   createCalls + (folderCandidates parentFolderId folderName).length)

structure TraceEntry where
  step : String
  parent_folder_id : String
  folder_name : String
  created : Option Bool
  found : Option Bool
  attempts : Option (List Attempt)
deriving DecidableEq, Repr

structure FolderState where
  parentFolderId : String
  trace : List TraceEntry
  listCalls : Nat
  createCalls : Nat
deriving DecidableEq, Repr

/-- One iteration of the `ensureFolderPath` loop (lines 385-416): skip
empty-normalising segments, look the name up, otherwise run all five
creation candidates, re-list once, and fail with an error naming the
segment if it still cannot be located. -/
def ensureSegment (env : FolderEnv) (st : FolderState) (rawPart : String) :
    Except String FolderState :=
  let folderName := normalizeFolderName rawPart
  if folderName = "" then .ok st
  else
    let folders := env.listResp st.listCalls
    match folders.find? fun item => item.name = folderName with
    | some found =>
      if found.id = "" then .error ("无法创建或定位目录: " ++ folderName)
      else
        .ok ⟨found.id,
          st.trace ++ [⟨"ensure_folder", st.parentFolderId, folderName,
            some false, some true, none⟩],
          st.listCalls + 1, st.createCalls⟩
    | none =>
      let res := createFolderCandidates env st.createCalls st.parentFolderId folderName
      let refreshed := env.listResp (st.listCalls + 1)
      let foundOpt := refreshed.find? fun item => item.name = folderName
      let entry : TraceEntry := ⟨"ensure_folder", st.parentFolderId, folderName,
        some foundOpt.isSome, none, some res.1⟩
      match foundOpt with
      | some found =>
        if found.id = "" then .error ("无法创建或定位目录: " ++ folderName)
        else .ok ⟨found.id, st.trace ++ [entry], st.listCalls + 2, res.2⟩
      | none => .error ("无法创建或定位目录: " ++ folderName)

/-- `ensureFolderPath` (lines 381-419), starting at the fixed root. -/
def ensureFolderPath (env : FolderEnv) (parts : List String) :
    Except String FolderState :=
  parts.foldlM (ensureSegment env) ⟨ROOT_FOLDER_ID, [], 0, 0⟩

structure FindResult where
  ok : Bool
  folderId : String
  trace : List TraceEntry
  reason : Option String
  missing_name : Option String
  listCalls : Nat
deriving DecidableEq, Repr

/-- `findFolderPath` (lines 421-451): the read-only walk, returning a
structured miss at the first missing segment. -/
def findFolderPathAux (env : FolderEnv) :
    List String → String → List TraceEntry → Nat → FindResult
  | [], parentId, trace, lc => ⟨true, parentId, trace, none, none, lc⟩
  | rawPart :: rest, parentId, trace, lc =>
    let folderName := normalizeFolderName rawPart
    if folderName = "" then findFolderPathAux env rest parentId trace lc
    else
      let folders := env.listResp lc
      let foundOpt := folders.find? fun item => item.name = folderName
      let trace' := trace ++ [⟨"find_folder", parentId, folderName,
        none, some foundOpt.isSome, none⟩]
      match foundOpt with
      | some found =>
        if found.id = "" then
          ⟨false, "", trace', some "folder_not_found", some folderName, lc + 1⟩
        else findFolderPathAux env rest found.id trace' (lc + 1)
      | none => ⟨false, "", trace', some "folder_not_found", some folderName, lc + 1⟩

def findFolderPath (env : FolderEnv) (parts : List String) : FindResult :=
  findFolderPathAux env parts ROOT_FOLDER_ID [] 0

theorem runCandidates_eq_range (env : FolderEnv) :
    ∀ (cands : List Candidate) (n : Nat),
      runCandidates env cands n =
        (List.range cands.length).map fun j =>
          attemptOf (env.createResp (n + j)) (cands.getD j ⟨"", "", []⟩) := by
  intro cands
  induction cands with
  | nil => intro n; rfl
  | cons c rest ih =>
    intro n
    simp only [List.length_cons]
    rw [List.range_succ_eq_map]
    simp only [runCandidates, List.map_cons, List.map_map]
    congr 1
    rw [ih (n + 1)]
    apply List.map_congr_left
    intro j _
    simp only [Function.comp, List.getD_cons_succ]
    have hidx : n + (j + 1) = n + 1 + j := by omega
    rw [hidx]

/-- C6: when a normalised segment is missing from the listed children, all
five creation candidates are attempted in order — attempt `j` is candidate
`j` paired with the outcome of the `(createCalls + j)`-th creation call,
recorded whatever the earlier outcomes were — the directory is re-listed
exactly once (two listing calls for the segment in total), and the segment
either resolves to the id found by the re-listing or fails with an error
naming it. -/
theorem claim6_createFallback (env : FolderEnv) (st : FolderState) (rawPart : String)
    (hname : ¬ normalizeFolderName rawPart = "")
    (hmiss : (env.listResp st.listCalls).find?
      (fun item => item.name = normalizeFolderName rawPart) = none) :
    ensureSegment env st rawPart =
      match (env.listResp (st.listCalls + 1)).find?
          (fun item => item.name = normalizeFolderName rawPart) with
      | some f =>
        if f.id = "" then .error ("无法创建或定位目录: " ++ normalizeFolderName rawPart)
        else .ok ⟨f.id,
          st.trace ++ [⟨"ensure_folder", st.parentFolderId, normalizeFolderName rawPart,
            some true, none,
            some ((List.range 5).map fun j =>
              attemptOf (env.createResp (st.createCalls + j))
                ((folderCandidates st.parentFolderId
                  (normalizeFolderName rawPart)).getD j ⟨"", "", []⟩))⟩],
          st.listCalls + 2, st.createCalls + 5⟩
      | none => .error ("无法创建或定位目录: " ++ normalizeFolderName rawPart) := by
  unfold ensureSegment
  simp only [if_neg hname, hmiss]
  have hlen : (folderCandidates st.parentFolderId (normalizeFolderName rawPart)).length = 5 :=
    rfl
  simp only [createFolderCandidates,
    runCandidates_eq_range env (folderCandidates st.parentFolderId
      (normalizeFolderName rawPart)) st.createCalls, hlen]
  cases hfind : (env.listResp (st.listCalls + 1)).find?
      (fun item => item.name = normalizeFolderName rawPart) with
  | some f => simp only [hfind, Option.isSome_some]
  | none => simp only [hfind]

/-- The environment of the C6 witness: the first listing is empty, every
creation attempt fails, and the re-listing exposes the folder. -/
def claim6Env : FolderEnv :=
  ⟨fun n => if n = 0 then [] else [⟨"id9", "seg"⟩], fun _ => .error "boom"⟩

/-- C6, witness: a concrete missing segment whose five creation attempts
all fail — each recorded — and whose single re-listing succeeds. -/
theorem claim6_witness :
    ensureSegment claim6Env ⟨"-11", [], 0, 0⟩ "seg" =
      .ok ⟨"id9",
        [⟨"ensure_folder", "-11", "seg", some true, none,
          some [⟨false, "/api/open/file/createFolder.action", "POST", some "boom"⟩,
                ⟨false, "/api/open/file/createFolder.action", "POST", some "boom"⟩,
                ⟨false, "/api/open/file/createFolder.action", "POST", some "boom"⟩,
                ⟨false, "/api/open/batch/createBatchTask.action", "POST", some "boom"⟩,
                ⟨false, "/api/open/batch/createBatchTask.action", "POST", some "boom"⟩]⟩],
        2, 5⟩ := by
  have h := claim6_createFallback claim6Env ⟨"-11", [], 0, 0⟩ "seg"
    (by decide) (by rfl)
  rw [h]
  rfl

/-- The environment of the C10 counterexample: every listing is empty. -/
def claim10Env : FolderEnv := ⟨fun _ => [], fun _ => .ok ()⟩

/-- C10, counterexample: a parts list containing only the separator-only
segment "/" is NOT skipped — "/" normalises to "_" (trim happens before
the separators are replaced by '_'), a listing is performed, and the
resolution fails with missing name "_" instead of yielding the root id. -/
theorem claim10_counterexample :
    normalizeFolderName "/" = "_" ∧
    (findFolderPath claim10Env ["/"]).listCalls = 1 ∧
    (findFolderPath claim10Env ["/"]).ok = false ∧
    (findFolderPath claim10Env ["/"]).missing_name = some "_" ∧
    (findFolderPath claim10Env ["/"]).trace ≠ [] := by decide

theorem findFolderPathAux_filter (env : FolderEnv) :
    ∀ (parts : List String) (parentId : String) (trace : List TraceEntry) (lc : Nat),
      findFolderPathAux env parts parentId trace lc =
        findFolderPathAux env (parts.filter fun p => ¬ normalizeFolderName p = "")
          parentId trace lc := by
  intro parts
  induction parts with
  | nil => intro parentId trace lc; rfl
  | cons p rest ih =>
    intro parentId trace lc
    by_cases hp : normalizeFolderName p = ""
    · rw [List.filter_cons]
      have hdec : (decide (¬ normalizeFolderName p = "")) = false := by simp [hp]
      rw [hdec, if_neg (by simp)]
      have hskip : findFolderPathAux env (p :: rest) parentId trace lc =
          findFolderPathAux env rest parentId trace lc := by
        simp [findFolderPathAux, hp]
      rw [hskip, ih]
    · rw [List.filter_cons]
      have hdec : (decide (¬ normalizeFolderName p = "")) = true := by simp [hp]
      rw [hdec, if_pos rfl]
      simp only [findFolderPathAux, hp, if_neg hp]
      cases hfind : (env.listResp lc).find? fun item => item.name = normalizeFolderName p with
      | some found =>
        by_cases hid : found.id = ""
        · simp [hfind, hid]
        · simp [hfind, hid, ih]
      | none => simp [hfind]

theorem except_ok_bind (x : α) (f : α → Except ε β) : (Except.ok x >>= f) = f x := rfl

theorem except_error_bind (e : ε) (f : α → Except ε β) :
    (Except.error e >>= f) = (Except.error e : Except ε β) := rfl

theorem ensureFoldlM_filter (env : FolderEnv) :
    ∀ (parts : List String) (st : FolderState),
      parts.foldlM (ensureSegment env) st =
        (parts.filter fun p => ¬ normalizeFolderName p = "").foldlM
          (ensureSegment env) st := by
  intro parts
  induction parts with
  | nil => intro st; rfl
  | cons p rest ih =>
    intro st
    by_cases hp : normalizeFolderName p = ""
    · rw [List.filter_cons]
      have hdec : (decide (¬ normalizeFolderName p = "")) = false := by simp [hp]
      rw [hdec, if_neg (by simp)]
      have hskip : ensureSegment env st p = .ok st := by
        simp [ensureSegment, hp]
      simp only [List.foldlM_cons, hskip]
      exact ih st
    · rw [List.filter_cons]
      have hdec : (decide (¬ normalizeFolderName p = "")) = true := by simp [hp]
      rw [hdec, if_pos rfl]
      simp only [List.foldlM_cons]
      cases hseg : ensureSegment env st p with
      | ok st' =>
        rw [except_ok_bind, except_ok_bind]
        exact ih st'
      | error e => rw [except_error_bind, except_error_bind]

/-- C10, amended: a segment is normalised by trimming and then replacing
every run of '/' or '\' with a single '_', and a segment that normalises to
the empty string is silently skipped — no trace entry, no listing, no
creation.  Consequently both walks ignore exactly the segments with empty
normalisation, and a parts list all of whose segments normalise to empty
(empty or whitespace-only segments — a separator-only segment instead
normalises to "_" and is processed) performs no listing or creation and
yields the fixed root folder id. -/
theorem claim10_emptySegments (env : FolderEnv) (parts : List String) :
    findFolderPath env parts =
      findFolderPath env (parts.filter fun p => ¬ normalizeFolderName p = "") ∧
    ensureFolderPath env parts =
      ensureFolderPath env (parts.filter fun p => ¬ normalizeFolderName p = "") ∧
    ((∀ p ∈ parts, normalizeFolderName p = "") →
      findFolderPath env parts = ⟨true, ROOT_FOLDER_ID, [], none, none, 0⟩ ∧
      ensureFolderPath env parts = .ok ⟨ROOT_FOLDER_ID, [], 0, 0⟩) := by
  refine ⟨findFolderPathAux_filter env parts _ _ _, ensureFoldlM_filter env parts _, ?_⟩
  intro hall
  have hfilter : (parts.filter fun p => ¬ normalizeFolderName p = "") = [] := by
    rw [List.filter_eq_nil_iff]
    intro p hp
    simp [hall p hp]
  constructor
  · rw [findFolderPath, findFolderPathAux_filter env parts _ _ _, hfilter]
    rfl
  · rw [ensureFolderPath, ensureFoldlM_filter env parts _, hfilter]
    rfl

/-! ## Share link resolver (src/backend/tianyi_share_resolver.js, `run`)

`new URL(...)` is modelled as an environment parser yielding hostname,
pathname and the `pwd` query parameter; `requestText` (fetch + body
classification + JSON/JSONP parse, lines 146-164) is modelled as the
environment's response to the n-th network call, its parsed payload living
in the environment's heap; the regex fallback `extractShareIdFromText`
(lines 120-133) is abstracted as an environment function.  The embedded
`run` returns its result together with the number of network calls
performed. -/

/-- `s.split(sep)` with JS semantics (keeps empty pieces). -/
def jsSplitAux (sep : Char) : List Char → List Char → List String
  | [], acc => [String.mk acc.reverse]
  | c :: rest, acc =>
    if c = sep then String.mk acc.reverse :: jsSplitAux sep rest []
    else jsSplitAux sep rest (c :: acc)

def jsSplit (s : String) (sep : Char) : List String := jsSplitAux sep s.data []

def digitsVal : List Char → Nat → Nat
  | [], acc => acc
  | c :: rest, acc => digitsVal rest (acc * 10 + (c.toNat - 48))

/-- `Number.parseInt(s, 10)`: skip whitespace, optional sign, the leading
digit run; no digits means NaN (`none`). -/
def parseIntM (s : String) : Option Int :=
  let t := (jsTrim s).data
  let core : List Char × Bool :=
    match t with
    | '-' :: rest => (rest, true)
    | '+' :: rest => (rest, false)
    | _ => (t, false)
  let ds := core.1.takeWhile Char.isDigit
  if ds = [] then none
  else
    let v : Int := Int.ofNat (digitsVal ds 0)
    some (if core.2 then -v else v)

/-- `asInt(value, fallback)` (lines 109-113), on the stringified value. -/
def asInt (s : String) (fallback : Int) : Int := (parseIntM s).getD fallback

/-- `toFolderFlag(value)` (lines 115-118): lowercase, trim, test "1"/"true". -/
def toFolderFlag (s : String) : Bool :=
  jsTrim (lowerStr s) = "1" ∨ jsTrim (lowerStr s) = "true"

/-- `String(a || b || … || "")`: the first truthy value stringified. -/
def firstTruthyStr (refStr : Nat → String) : List JVal → String
  | [] => ""
  | v :: rest => if jsTruthy v then jsToString refStr v else firstTruthyStr refStr rest

/-- `v ?? ""` stringified. -/
def jsStrNullish (refStr : Nat → String) (v : JVal) : String :=
  if nullish v then "" else jsToString refStr v

structure ShareFile where
  file_id : String
  name : String
  size : Int
  is_folder : Bool
deriving DecidableEq, Repr

/-- `mapFilesFromPayload(payload)` (lines 166-183). -/
def mapFilesFromPayload (h : Heap) (refStr : Nat → String) (payload : JVal) :
    List ShareFile :=
  let list := getDeepArray h payload ["fileList", "files", "rows", "list"]
  list.filterMap fun item =>
    match item with
    | .ref r =>
      match deref h r with
      | .obj fields =>
        let fileId := jsTrim (firstTruthyStr refStr
          [lookupField fields "id", lookupField fields "fileId"])
        if fileId = "" then none
        else some ⟨fileId,
          firstTruthyStr refStr
            [lookupField fields "name", lookupField fields "fileName",
             .str ("file-" ++ fileId)],
          max 0 (asInt (jsStrNullish refStr
            (coalesce (lookupField fields "size") (lookupField fields "fileSize"))) 0),
          toFolderFlag (jsStrNullish refStr (lookupField fields "isFolder"))⟩
      | .arr _ => none
    | _ => none

/-- A parsed share URL: what `run` reads off the `URL` object. -/
structure UrlModel where
  hostname : String
  pathname : String
  pwdParam : Option String
deriving DecidableEq, Repr

/-- One `requestText` result (lines 146-164): status, final URL, body text,
diagnostic body type, and the parsed JSON/JSONP payload (if any). -/
structure RespM where
  status : Nat
  url : String
  text : String
  bodyType : String
  payload : Option JVal
deriving Repr

/-- The resolver's environment. -/
structure RunEnv where
  heap : Heap
  refStr : Nat → String
  parseUrl : String → Option UrlModel
  net : Nat → RespM
  extractShareId : String → String

/-- One diagnostic attempt record (`appendAttempt`, lines 185-197), with
the `Object.assign` defaults for absent fields. -/
structure RunAttempt where
  step : String
  endpoint : String
  ok : Bool
  status : Nat
  body_type : String
  body_preview : String
  share_id : String
  message : String
deriving DecidableEq, Repr

structure RunData where
  share_code : String
  share_id : String
  pwd : String
  files : List ShareFile
deriving DecidableEq, Repr

structure RunOutput where
  ok : Bool
  data : Option RunData
  error : Option String
  attempts : List RunAttempt
deriving DecidableEq, Repr

/-- `checkResp.payload && typeof checkResp.payload === "object" ? … : {}`:
a non-object payload is replaced by an empty object, which the deep search
treats like any non-match. -/
def objOrEmpty (v : Option JVal) : JVal :=
  match v with
  | some (.ref r) => .ref r
  | _ => .undefv

/-- The network phase of `run` (lines 227-363), after validation:
access-code check (only when a pwd is present), share-info call, regex
fallback, structured failure without a shareId, and the listing call with
the single-file synthesis. -/
def runNetwork (env : RunEnv) (shareCode pwd : String) :
    Except String RunOutput × Nat :=
  let check :
      String × List RunAttempt × Nat :=
    if ¬ pwd = "" then
      let resp := env.net 0
      let sid := getDeepString env.refStr env.heap (objOrEmpty resp.payload)
        ["shareId", "shareID", "shareid"]
      (sid,
       [⟨"check_access_code_primary_js", "/api/open/share/checkAccessCode.action",
         ¬ sid = "", resp.status, resp.bodyType, shortText resp.text, sid, ""⟩],
       1)
    else
      ("",
       [⟨"check_access_code_primary_js", "/api/open/share/checkAccessCode.action",
         false, 0, "", "", "", "pwd_missing_skip"⟩],
       0)
  let infoResp := env.net check.2.2
  let infoV := objOrEmpty infoResp.payload
  let sidInfo := getDeepString env.refStr env.heap infoV ["shareId", "shareID", "shareid"]
  let shareId1 := if ¬ sidInfo = "" then sidInfo else check.1
  let rootFileId0 := getDeepString env.refStr env.heap infoV ["fileId", "fileID", "fileid"]
  let attempts1 := check.2.1 ++
    [⟨"get_share_info_js", "/api/open/share/getShareInfoByCodeV2.action",
      ¬ shareId1 = "", infoResp.status, infoResp.bodyType, shortText infoResp.text,
      shareId1, ""⟩]
  let shareId2 :=
    if shareId1 = "" then
      let t := env.extractShareId infoResp.text
      if t = "" then env.extractShareId infoResp.url else t
    else shareId1
  let rootFileId := if rootFileId0 = "" then shareId2 else rootFileId0
  if shareId2 = "" then
    (.ok ⟨false, none, some "js_share_parse_failed_no_shareid", attempts1⟩,
     check.2.2 + 1)
  else
    let listResp := env.net (check.2.2 + 1)
    let listV := objOrEmpty listResp.payload
    let attempts2 := attempts1 ++
      [⟨"list_share_dir_js", "/api/open/share/listShareDir.action",
        200 ≤ listResp.status ∧ listResp.status < 400, listResp.status,
        listResp.bodyType, shortText listResp.text, shareId2, ""⟩]
    let files0 := mapFilesFromPayload env.heap env.refStr listV
    let files :=
      if files0 = [] ∧ ¬ rootFileId = "" then
        [⟨rootFileId,
          (let n := getDeepString env.refStr env.heap infoV ["name", "fileName"]
           if n = "" then "single-file" else n),
          max 0 (asInt (getDeepString env.refStr env.heap infoV ["size", "fileSize"]) 0),
          false⟩]
      else files0
    (.ok ⟨true, some ⟨shareCode, shareId2, pwd, files⟩, none, attempts2⟩,
     check.2.2 + 2)

theorem le_snd_ite (c : Prop) [Decidable c] (x y : β × Nat)
    (hx : 1 ≤ x.2) (hy : 1 ≤ y.2) : 1 ≤ (if c then x else y).2 := by
  split
  · exact hx
  · exact hy

theorem runNetwork_calls_pos (env : RunEnv) (sc pwd : String) :
    1 ≤ (runNetwork env sc pwd).2 := by
  unfold runNetwork
  repeat' split
  all_goals dsimp only
  all_goals apply le_snd_ite <;> (dsimp only; omega)

/-- `run(input)` (lines 199-364): input validation in source order, then
the network phase.  The second component counts `requestText` calls. -/
def run (env : RunEnv) (share_url cookie : String) : Except String RunOutput × Nat :=
  let su := jsTrim share_url
  let ck := jsTrim cookie
  if su = "" then (.error "share_url_empty", 0)
  else if ck = "" then (.error "cookie_empty", 0)
  else
    match env.parseUrl su with
    | none => (.error "share_url_invalid", 0)
    | some u =>
      let host := lowerStr u.hostname
      if ¬ (host = "cloud.189.cn" ∨ host = "www.cloud.189.cn") then
        (.error "share_host_invalid", 0)
      else
        let pathParts := (jsSplit u.pathname '/').filter fun item => ¬ jsTrim item = ""
        if pathParts.length < 2 ∨ ¬ pathParts.getD 0 "" = "t" then
          (.error "share_path_invalid", 0)
        else
          let shareCode := jsTrim (pathParts.getD 1 "")
          let pwd := jsTrim (u.pwdParam.getD "")
          runNetwork env shareCode pwd

/-- C4: share resolution validates before it touches the network.  An
unparseable URL, a host other than the expected cloud domain, or a path not
of the form `/t/<code>` each fail fast with the corresponding validation
error and zero network calls; and the validation errors are the only
zero-call outcomes — once validation passes, at least one network call is
made. -/
theorem claim4_failFast (env : RunEnv) (share_url cookie : String) :
    (¬ jsTrim share_url = "" → ¬ jsTrim cookie = "" →
      env.parseUrl (jsTrim share_url) = none →
      run env share_url cookie = (.error "share_url_invalid", 0)) ∧
    (∀ u, ¬ jsTrim share_url = "" → ¬ jsTrim cookie = "" →
      env.parseUrl (jsTrim share_url) = some u →
      ¬ (lowerStr u.hostname = "cloud.189.cn" ∨ lowerStr u.hostname = "www.cloud.189.cn") →
      run env share_url cookie = (.error "share_host_invalid", 0)) ∧
    (∀ u, ¬ jsTrim share_url = "" → ¬ jsTrim cookie = "" →
      env.parseUrl (jsTrim share_url) = some u →
      (lowerStr u.hostname = "cloud.189.cn" ∨ lowerStr u.hostname = "www.cloud.189.cn") →
      (((jsSplit u.pathname '/').filter fun item => ¬ jsTrim item = "").length < 2 ∨
        ¬ ((jsSplit u.pathname '/').filter fun item => ¬ jsTrim item = "").getD 0 "" = "t") →
      run env share_url cookie = (.error "share_path_invalid", 0)) ∧
    (∀ u, env.parseUrl (jsTrim share_url) = some u →
      (lowerStr u.hostname = "cloud.189.cn" ∨ lowerStr u.hostname = "www.cloud.189.cn") →
      ¬ (((jsSplit u.pathname '/').filter fun item => ¬ jsTrim item = "").length < 2 ∨
        ¬ ((jsSplit u.pathname '/').filter fun item => ¬ jsTrim item = "").getD 0 "" = "t") →
      1 ≤ (run env share_url cookie).2 ∨
        run env share_url cookie = (.error "share_url_empty", 0) ∨
        run env share_url cookie = (.error "cookie_empty", 0)) := by
  refine ⟨?_, ?_, ?_, ?_⟩
  · intro hsu hck hparse
    simp [run, hsu, hck, hparse]
  · intro u hsu hck hparse hhost
    simp [run, hsu, hck, hparse, hhost]
  · intro u hsu hck hparse hhost hpath
    simp only [run]
    rw [if_neg hsu, if_neg hck, hparse]
    simp only [if_neg (not_not.mpr hhost), if_pos hpath]
  · intro u hparse hhost hpath
    by_cases hsu : jsTrim share_url = ""
    · right; left; simp [run, hsu]
    · by_cases hck : jsTrim cookie = ""
      · right; right; simp [run, hsu, hck]
      · left
        simp only [run]
        rw [if_neg hsu, if_neg hck]
        simp only [hparse]
        rw [if_neg (not_not.mpr hhost), if_neg hpath]
        exact runNetwork_calls_pos env _ _

/-! ## Download streaming (src/unnamed/part_000, `downloadUrlToFile`)

The fetch response is a record; its body is `none` (null) or a stream that
delivers some chunks and then either ends cleanly or raises — `pipeline`
writes the delivered chunks to the freshly created write stream and rejects
with the stream's error.  `statSize` is what `fs.statSync(targetPath).size`
reports afterwards: a separate filesystem query whose relation to the
stream is nowhere checked by the code, so the model keeps it an independent
input.  The second component of the result is the destination file's
content after the call (`none`: never created or touched). -/

structure DlResp where
  ok : Bool
  status : Nat
  errText : String
  body : Option (List (List Nat) × Option String)

structure DlResult where
  local_file_path : String
  file_size : Nat
deriving DecidableEq, Repr

/-- `downloadUrlToFile` (lines 731-755), over the resolved target path. -/
def downloadUrlToFile (targetPath : String) (resp : DlResp) (statSize : Nat) :
    Except String DlResult × Option (List Nat) :=
  if targetPath = "" then (.error "本地下载路径无效", none)
  else if resp.ok = false then
    (.error ("下载失败 status=" ++ toString resp.status ++ " body=" ++ shortText resp.errText),
     none)
  else
    match resp.body with
    | none =>
      (.error ("下载失败 status=" ++ toString resp.status ++ " body=" ++ shortText resp.errText),
       none)
    | some (chunks, streamErr) =>
      let written := chunks.flatten
      match streamErr with
      | some e => (.error e, some written)
      | none => (.ok ⟨targetPath, statSize⟩, some written)

set_option maxRecDepth 2000 in
/-- C5, counterexample: a successful response whose stream delivers five
bytes and ends cleanly, while the final stat reports size 0, is returned as
a success carrying size 0 — no comparison of the final byte size against
the stream outcome happens before success is returned. -/
theorem claim5_counterexample :
    downloadUrlToFile "/tmp/out" ⟨true, 200, "", some ([[1, 2, 3, 4, 5]], none)⟩ 0 =
      (.ok ⟨"/tmp/out", 0⟩, some [1, 2, 3, 4, 5]) ∧
    List.length [1, 2, 3, 4, 5] ≠ 0 := by
  exact ⟨rfl, by decide⟩

/-- C5, amended: a failed or non-2xx response aborts before any bytes are
written to the destination (the write stream is only created after the
check), and a stream failure mid-transfer surfaces as an error — never as
success — though the partially written bytes remain on disk; on a clean
stream the fresh stat size is returned as-is, without being verified
against the stream outcome. -/
theorem claim5_download (targetPath : String) (resp : DlResp) (statSize : Nat) :
    ((resp.ok = false ∨ resp.body = none) →
      (downloadUrlToFile targetPath resp statSize).2 = none ∧
      ∃ e, (downloadUrlToFile targetPath resp statSize).1 = Except.error e) ∧
    (∀ chunks e, resp.body = some (chunks, some e) → ¬ targetPath = "" → resp.ok = true →
      (downloadUrlToFile targetPath resp statSize).1 = Except.error e ∧
      (downloadUrlToFile targetPath resp statSize).2 = some chunks.flatten) ∧
    (∀ chunks, resp.body = some (chunks, none) → ¬ targetPath = "" → resp.ok = true →
      (downloadUrlToFile targetPath resp statSize).1 = Except.ok ⟨targetPath, statSize⟩ ∧
      (downloadUrlToFile targetPath resp statSize).2 = some chunks.flatten) := by
  refine ⟨?_, ?_, ?_⟩
  · intro hfail
    unfold downloadUrlToFile
    by_cases hpath : targetPath = ""
    · rw [if_pos hpath]
      exact ⟨rfl, _, rfl⟩
    · rw [if_neg hpath]
      rcases hfail with hok | hbody
      · rw [if_pos hok]
        exact ⟨rfl, _, rfl⟩
      · by_cases hok : resp.ok = false
        · rw [if_pos hok]
          exact ⟨rfl, _, rfl⟩
        · rw [if_neg hok, hbody]
          exact ⟨rfl, _, rfl⟩
  · intro chunks e hbody hpath hok
    unfold downloadUrlToFile
    rw [if_neg hpath, if_neg (by rw [hok]; simp), hbody]
    exact ⟨rfl, rfl⟩
  · intro chunks hbody hpath hok
    unfold downloadUrlToFile
    rw [if_neg hpath, if_neg (by rw [hok]; simp), hbody]
    exact ⟨rfl, rfl⟩

/-! ## Process entry points

A minimal JSON value type for the emitted result objects.  The runner
outcomes (the four `run*` functions of part_000, and `run` of the share
resolver) are environment parameters: C7 is about the wrapper's output
discipline, not the runners. -/

inductive J where
  | null
  | bool (b : Bool)
  | num (n : Int)
  | str (s : String)
  | arr (elems : List J)
  | obj (fields : List (String × J))

/-- `payload.action` (undefined unless the payload is an object with the
field). -/
def jGet (payload : J) (k : String) : Option J :=
  match payload with
  | .obj fields => (fields.find? fun f => f.1 = k).map Prod.snd
  | _ => none

def jTruthy : J → Bool
  | .null => false
  | .bool b => b
  | .num n => n ≠ 0
  | .str s => s ≠ ""
  | .arr _ => true
  | .obj _ => true

/-- `String(v)` for an `action` value; composite values stringify to a
name matching no supported action (as in JS, apart from exotic arrays). -/
def jToStr : J → String
  | .null => "null"
  | .bool b => if b then "true" else "false"
  | .num n => toString n
  | .str s => s
  | .arr _ => "[object Object]"
  | .obj _ => "[object Object]"

/-- An emitted result whose `ok` field is literally `false`. -/
def jIsFailure : J → Bool
  | .obj fields =>
    match (fields.find? fun f => f.1 = "ok").map Prod.snd with
    | some (.bool false) => true
    | _ => false
  | _ => false

/-- Everything a process invocation writes and how it exits. -/
structure MainOut where
  outputs : List J
  exitCode : Nat

/-- The main IIFE of src/unnamed/part_000 (lines 892-916): parse stdin
(`Except.error` models a `readStdinJson` rejection), dispatch the action,
write exactly one JSON result, and set `process.exitCode = 1` in the catch
handler. -/
def mainPart000 (runners : String → Except String J) (stdin : Except String J) :
    MainOut :=
  let failOut : String → MainOut := fun e =>
    ⟨[J.obj [("ok", J.bool false), ("error", J.str (shortText e)),
       ("diagnostics", J.obj [("error_type", J.str "Error"),
         ("message", J.str (shortText e))])]], 1⟩
  match stdin with
  | .error e => failOut e
  | .ok input =>
    let payload := if jTruthy input then input else J.obj []
    let rawAction :=
      match jGet payload "action" with
      | some v => if jTruthy v then jToStr v else "upload"
      | none => "upload"
    let action := lowerStr (jsTrim rawAction)
    let outcome : Except String J :=
      if action = "upload" ∨ action = "list_versions" ∨ action = "download_file" then
        runners action
      else .error ("不支持的 action: " ++ action)
    match outcome with
    | .ok data => ⟨[J.obj [("ok", J.bool true), ("data", data)]], 0⟩
    | .error e => failOut e

/-- `main()` of src/backend/tianyi_share_resolver.js (lines 374-397):
invalid stdin JSON writes a failure object and returns; otherwise the `run`
outcome — the returned object as-is, or `{ok:false, error}` for a thrown
error — is written.  No path assigns `process.exitCode`. -/
def mainResolver (runOutcome : Except String J) (stdin : Except String J) : MainOut :=
  match stdin with
  | .error _ => ⟨[J.obj [("ok", J.bool false), ("error", J.str "stdin_json_invalid")]], 0⟩
  | .ok _ =>
    match runOutcome with
    | .ok result => ⟨[result], 0⟩
    | .error e => ⟨[J.obj [("ok", J.bool false), ("error", J.str e)]], 0⟩

/-- C7, counterexample: the share resolver invoked with unparseable stdin
emits the failure object `{ok: false, error: "stdin_json_invalid"}` (with
no diagnostics member) yet exits with status 0, not non-zero. -/
theorem claim7_counterexample :
    (mainResolver (.ok (J.obj [])) (.error "bad json")).outputs =
      [J.obj [("ok", J.bool false), ("error", J.str "stdin_json_invalid")]] ∧
    jIsFailure ((mainResolver (.ok (J.obj [])) (.error "bad json")).outputs.getD 0 J.null)
      = true ∧
    (mainResolver (.ok (J.obj [])) (.error "bad json")).exitCode = 0 :=
  ⟨rfl, rfl, rfl⟩

/-- C7, amended: each backend process emits exactly one JSON result object
on completion.  part_000 exits non-zero exactly when the emitted result is
a failure ({ok:false, error, diagnostics}); the share resolver always exits
with status 0, even when the emitted result is a failure. -/
theorem claim7_oneResult (runners : String → Except String J)
    (runOutcome : Except String J) (s₁ s₂ : Except String J) :
    (mainPart000 runners s₁).outputs.length = 1 ∧
    ((mainPart000 runners s₁).exitCode = 1 ↔
      jIsFailure ((mainPart000 runners s₁).outputs.getD 0 J.null) = true) ∧
    ((mainPart000 runners s₁).exitCode = 0 ∨ (mainPart000 runners s₁).exitCode = 1) ∧
    (mainResolver runOutcome s₂).outputs.length = 1 ∧
    (mainResolver runOutcome s₂).exitCode = 0 := by
  refine ⟨?_, ?_, ?_, ?_, ?_⟩
  · unfold mainPart000
    cases s₁ with
    | error e => rfl
    | ok input =>
      dsimp only
      split
      · rfl
      · rfl
  · unfold mainPart000
    cases s₁ with
    | error e => simp [jIsFailure]
    | ok input =>
      dsimp only
      split
      · simp [jIsFailure]
      · simp [jIsFailure]
  · unfold mainPart000
    cases s₁ with
    | error e => exact Or.inr rfl
    | ok input =>
      dsimp only
      split
      · exact Or.inl rfl
      · exact Or.inr rfl
  · unfold mainResolver
    cases s₂ with
    | error e => rfl
    | ok input =>
      dsimp only
      cases runOutcome <;> rfl
  · unfold mainResolver
    cases s₂ with
    | error e => rfl
    | ok input =>
      dsimp only
      cases runOutcome <;> rfl

end Freedeck
